import Mathlib

/-!
Verification of the QKB lead-finder scraper (`src/app.py`).

The development shallowly embeds the pure parts of the program:

* `parse_rows_from_response` — the tolerant response parser (direct JSON
  first, then the `JSON.parse("...")` literal embedded in a script),
  including a model of the regular expression `JSON_PARSE_RX`, of Python's
  `ast.literal_eval` on a single quoted string literal, and of
  `json.loads`.
* `normalize_dataframe` and `split_people` — the row normaliser over a
  small explicit dataframe model (ordered column list + aligned cells).
* the per-run and global deduplication steps (`drop_duplicates`,
  `sort_values`), the capped contact-fetch loop, and the per-keyword
  failure isolation of `run_scrape`, over an explicit row type.
* `extract_contacts_for_nipt` — as a computation in `Except` over an
  environment of effect oracles, with the top-level exception swallowing
  made explicit.
* the `/download` handler's path check, with a model of
  `os.path.abspath`/`normpath`.

Modelling conventions: Python exceptions become `Except` errors; `None`
becomes `Option.none`; character classes (`\s`, `str.strip`,
`str.lower`) are modelled on their ASCII behaviour, which covers every
string any theorem below touches.  Strings are processed as `List Char`
(code points), matching Python's `str` semantics.
-/

/-! ### Python-style string helpers -/

/-- Python whitespace (`str.strip` default set, and `re` `\s`), ASCII part:
space, tab, newline, carriage return, vertical tab, form feed. -/
def pyWs (c : Char) : Bool :=
  c = ' ' || c = '\t' || c = '\n' || c = '\r' || c = Char.ofNat 11 || c = Char.ofNat 12

/-- `str.strip()` on a list of characters. -/
def pyTrim (l : List Char) : List Char :=
  ((l.dropWhile pyWs).reverse.dropWhile pyWs).reverse

/-- `str.strip()` on a `String`. -/
def pyStripS (s : String) : String := String.mk (pyTrim s.data)

/-- ASCII `str.lower()` (the content types compared in the source are ASCII). -/
def asciiLower (l : List Char) : List Char :=
  l.map fun c => if 'A' ≤ c && c ≤ 'Z' then Char.ofNat (c.toNat + 32) else c

/-- Consume the literal `pre` from the front of `s`; `none` when `s` does
not start with `pre`. -/
def consumeLit : List Char → List Char → Option (List Char)
  | [], s => some s
  | _ :: _, [] => none
  | c :: cs, x :: xs => if x = c then consumeLit cs xs else none

/-- `startswith` on character lists. -/
def pyStartsWith (pre s : List Char) : Bool := (consumeLit pre s).isSome

theorem consumeLit_append (pre rest : List Char) :
    consumeLit pre (pre ++ rest) = some rest := by
  induction pre with
  | nil => rfl
  | cons c cs ih => simp [consumeLit, ih]

/-! ### The regex `JSON_PARSE_RX`

`response\s*=\s*JSON\.parse\(\s*(["\'])([\s\S]*?)\1\s*\)`

The pattern is deterministic except for the two `\s*` gaps (each followed
by a fixed non-whitespace character, so maximal munch is equivalent) and
the lazy group, which matches the shortest prefix whose next characters
are the opening quote again followed by `\s*\)`.  `rxSearch` models
`re.search`: the match attempt is made at each position left to right. -/

/-- `\s*` (maximal munch; equivalent here because each use is followed by a
non-whitespace literal). -/
def rxDropWs (l : List Char) : List Char := l.dropWhile pyWs

/-- Does `\1\s*\)` match at this point?  (`\1` already consumed.) -/
def closeAfter (l : List Char) : Bool :=
  match rxDropWs l with
  | [] => false
  | c :: _ => c = ')'

/-- The lazy group `([\s\S]*?)\1\s*\)`: shortest inner text up to a
closing quote followed by `\s*\)`.  Returns the captured group 2. -/
def findClose (q : Char) : List Char → Option (List Char)
  | [] => none
  | c :: cs =>
    if c = q && closeAfter cs then some []
    else
      match findClose q cs with
      | some inner => some (c :: inner)
      | none => none

/-- One match attempt of `JSON_PARSE_RX` anchored at the head of `l`;
returns (quote character = group 1, inner text = group 2). -/
def rxMatchAt (l : List Char) : Option (Char × List Char) :=
  match consumeLit "response".data l with
  | none => none
  | some l1 =>
    match consumeLit "=".data (rxDropWs l1) with
    | none => none
    | some l2 =>
      match consumeLit "JSON.parse(".data (rxDropWs l2) with
      | none => none
      | some l3 =>
        match rxDropWs l3 with
        | [] => none
        | q :: l4 =>
          if q = '"' || q = '\'' then
            match findClose q l4 with
            | some inner => some (q, inner)
            | none => none
          else none

/-- `JSON_PARSE_RX.search`: leftmost match. -/
def rxSearch : List Char → Option (Char × List Char)
  | [] => rxMatchAt []
  | c :: cs =>
    match rxMatchAt (c :: cs) with
    | some r => some r
    | none => rxSearch cs

/-! ### Python string-literal unescaping (`ast.literal_eval` on one literal)

The source evaluates `ast.literal_eval(quote + inner + quote)`.  We model
the evaluation of that single quoted string literal: escape sequences are
processed by Python's rules, an unescaped quote or raw newline makes the
literal invalid (Python's implicit adjacent-literal concatenation, and
`\N{...}` name escapes, are modelled as errors — no theorem depends on
them), and lone-surrogate `\u` escapes are modelled as errors because a
Lean `Char` cannot carry them. -/

inductive LitErr : Type where
  | unescapedQuote
  | rawNewline
  | trailingBackslash
  | badHex
  | badUnicode
  | nameEscape
deriving DecidableEq, Repr

def isHexDig (c : Char) : Bool :=
  ('0' ≤ c && c ≤ '9') || ('a' ≤ c && c ≤ 'f') || ('A' ≤ c && c ≤ 'F')

def hexVal (c : Char) : Nat :=
  if '0' ≤ c && c ≤ '9' then c.toNat - 48
  else if 'a' ≤ c && c ≤ 'f' then c.toNat - 87
  else c.toNat - 55

def isOctDig (c : Char) : Bool := '0' ≤ c && c ≤ '7'

def octVal (c : Char) : Nat := c.toNat - 48

/-- Is `n` a UTF-16 surrogate code point (not a valid `Char`)? -/
def isSurrogate (n : Nat) : Bool := 0xD800 ≤ n && n < 0xE000

/-- One escape sequence, given the characters after the backslash:
returns the emitted characters and the remaining input.  Non-recursive. -/
def pyEscStep (_q : Char) : List Char → Except LitErr (List Char × List Char)
  | [] => .error .trailingBackslash
  | e :: cs1 =>
    if e = '\n' then .ok ([], cs1)                    -- line continuation
    else if e = '\\' then .ok (['\\'], cs1)
    else if e = '\'' then .ok (['\''], cs1)
    else if e = '"' then .ok (['"'], cs1)
    else if e = 'n' then .ok (['\n'], cs1)
    else if e = 'r' then .ok (['\r'], cs1)
    else if e = 't' then .ok (['\t'], cs1)
    else if e = 'b' then .ok ([Char.ofNat 8], cs1)
    else if e = 'f' then .ok ([Char.ofNat 12], cs1)
    else if e = 'v' then .ok ([Char.ofNat 11], cs1)
    else if e = 'a' then .ok ([Char.ofNat 7], cs1)
    else if e = 'x' then
      match cs1 with
      | a :: b :: cs2 =>
        if isHexDig a && isHexDig b then .ok ([Char.ofNat (hexVal a * 16 + hexVal b)], cs2)
        else .error .badHex
      | _ => .error .badHex
    else if e = 'u' then
      match cs1 with
      | a :: b :: c2 :: d :: cs2 =>
        if isHexDig a && isHexDig b && isHexDig c2 && isHexDig d then
          if isSurrogate (hexVal a * 4096 + hexVal b * 256 + hexVal c2 * 16 + hexVal d) then
            .error .badUnicode
          else
            .ok ([Char.ofNat (hexVal a * 4096 + hexVal b * 256 + hexVal c2 * 16 + hexVal d)],
              cs2)
        else .error .badUnicode
      | _ => .error .badUnicode
    else if e = 'U' then
      match cs1 with
      | a :: b :: c2 :: d :: a' :: b' :: c' :: d' :: cs2 =>
        if isHexDig a && isHexDig b && isHexDig c2 && isHexDig d &&
            isHexDig a' && isHexDig b' && isHexDig c' && isHexDig d' then
          if isSurrogate (((((((hexVal a * 16 + hexVal b) * 16 + hexVal c2) * 16 +
                hexVal d) * 16 + hexVal a') * 16 + hexVal b') * 16 + hexVal c') * 16 +
                hexVal d') ||
              0x110000 ≤ ((((((hexVal a * 16 + hexVal b) * 16 + hexVal c2) * 16 +
                hexVal d) * 16 + hexVal a') * 16 + hexVal b') * 16 + hexVal c') * 16 +
                hexVal d' then
            .error .badUnicode
          else
            .ok ([Char.ofNat (((((((hexVal a * 16 + hexVal b) * 16 + hexVal c2) * 16 +
                hexVal d) * 16 + hexVal a') * 16 + hexVal b') * 16 + hexVal c') * 16 +
                hexVal d')], cs2)
        else .error .badUnicode
      | _ => .error .badUnicode
    else if e = 'N' then .error .nameEscape
    else if isOctDig e then
      match cs1 with
      | d2 :: cs2 =>
        if isOctDig d2 then
          match cs2 with
          | d3 :: cs3 =>
            if isOctDig d3 then
              .ok ([Char.ofNat (octVal e * 64 + octVal d2 * 8 + octVal d3)], cs3)
            else .ok ([Char.ofNat (octVal e * 8 + octVal d2)], d3 :: cs3)
          | [] => .ok ([Char.ofNat (octVal e * 8 + octVal d2)], [])
        else .ok ([Char.ofNat (octVal e)], d2 :: cs2)
      | [] => .ok ([Char.ofNat (octVal e)], [])
    else .ok (['\\', e], cs1)                         -- unknown escape: kept verbatim

/-- The unescape loop, fuel-indexed so that it is structurally recursive;
every iteration consumes at least one character, so the fuel passed by
`pyUnescape` always suffices. -/
def pyUnescapeF (q : Char) : Nat → List Char → Except LitErr (List Char)
  | 0, _ => .error .trailingBackslash
  | _ + 1, [] => .ok []
  | fuel + 1, c :: cs =>
    if c = '\\' then
      match pyEscStep q cs with
      | .error e => .error e
      | .ok (em, rest) =>
        match pyUnescapeF q fuel rest with
        | .ok r => .ok (em ++ r)
        | .error e => .error e
    else if c = q then .error .unescapedQuote
    else if c = '\n' || c = '\r' then .error .rawNewline
    else
      match pyUnescapeF q fuel cs with
      | .ok r => .ok (c :: r)
      | .error e => .error e

/-- Unescape the inner text of a Python string literal quoted by `q`. -/
def pyUnescape (q : Char) (l : List Char) : Except LitErr (List Char) :=
  pyUnescapeF q (l.length + 1) l

/-! ### JSON values and `json.loads`

`Json` models the values `json.loads` produces.  Numbers are kept as
their matched lexeme (`num "1"`, `num "2.5e3"`, and the Python extensions
`NaN`/`Infinity`/`-Infinity`): no claim computes with numeric values, so
no float model is needed, and equality of values parsed from the same
text is unaffected.  Objects model Python dicts: insertion order, a
duplicate key overwrites the value at the first occurrence.  Lone
surrogate `\u` escapes (unrepresentable in a Lean `Char`) are modelled as
parse errors; no theorem depends on them. -/

inductive Json : Type where
  | null : Json
  | bool (b : Bool) : Json
  | num (lex : String) : Json
  | str (s : String) : Json
  | arr (elems : List Json) : Json
  | obj (fields : List (String × Json)) : Json

/-- `json.loads` failure (`json.JSONDecodeError`); the message/position
detail is not modelled. -/
inductive JErr : Type where
  | invalid
deriving DecidableEq, Repr

/-- The opening brace character (written numerically throughout). -/
def lbraceC : Char := Char.ofNat 123

/-- The closing brace character. -/
def rbraceC : Char := Char.ofNat 125

/-- JSON whitespace (the only whitespace `json.loads` skips). -/
def jsonWsB (c : Char) : Bool := c = ' ' || c = '\t' || c = '\n' || c = '\r'

/-- Dict insertion: a duplicate key overwrites in place, a new key is
appended. -/
def objInsert (kvs : List (String × Json)) (k : String) (v : Json) :
    List (String × Json) :=
  if kvs.any (fun p => p.1 = k) then kvs.map fun p => if p.1 = k then (k, v) else p
  else kvs ++ [(k, v)]

/-- Prepend a character to a pending JSON-string scan. -/
def jCons (c : Char) : Except JErr (List Char × List Char) → Except JErr (List Char × List Char)
  | .ok (s, r) => .ok (c :: s, r)
  | .error e => .error e

/-- Scan the body of a JSON string (opening `"` already consumed); returns
the decoded characters and the input after the closing `"`.  Strict mode:
raw control characters and unknown escapes are errors; surrogate pairs in
`\u` escapes are combined. -/
def jsonStrChars : List Char → Except JErr (List Char × List Char)
  | [] => .error .invalid
  | c :: cs =>
    if c = '"' then .ok ([], cs)
    else if c = '\\' then
      match cs with
      | [] => .error .invalid
      | e :: cs1 =>
        if e = '"' then jCons '"' (jsonStrChars cs1)
        else if e = '\\' then jCons '\\' (jsonStrChars cs1)
        else if e = '/' then jCons '/' (jsonStrChars cs1)
        else if e = 'b' then jCons (Char.ofNat 8) (jsonStrChars cs1)
        else if e = 'f' then jCons (Char.ofNat 12) (jsonStrChars cs1)
        else if e = 'n' then jCons '\n' (jsonStrChars cs1)
        else if e = 'r' then jCons '\r' (jsonStrChars cs1)
        else if e = 't' then jCons '\t' (jsonStrChars cs1)
        else if e = 'u' then
          match cs1 with
          | a :: b :: c2 :: d :: cs2 =>
            if isHexDig a && isHexDig b && isHexDig c2 && isHexDig d then
              if 0xD800 ≤ hexVal a * 4096 + hexVal b * 256 + hexVal c2 * 16 + hexVal d &&
                  hexVal a * 4096 + hexVal b * 256 + hexVal c2 * 16 + hexVal d < 0xDC00 then
                match cs2 with
                | e2 :: u2 :: a2 :: b2 :: c3 :: d2 :: cs3 =>
                  if e2 = '\\' && u2 = 'u' &&
                      isHexDig a2 && isHexDig b2 && isHexDig c3 && isHexDig d2 &&
                      0xDC00 ≤ hexVal a2 * 4096 + hexVal b2 * 256 + hexVal c3 * 16 + hexVal d2 &&
                      hexVal a2 * 4096 + hexVal b2 * 256 + hexVal c3 * 16 + hexVal d2 < 0xE000 then
                    jCons (Char.ofNat (0x10000 +
                        (hexVal a * 4096 + hexVal b * 256 + hexVal c2 * 16 + hexVal d - 0xD800) *
                          0x400 +
                        (hexVal a2 * 4096 + hexVal b2 * 256 + hexVal c3 * 16 + hexVal d2 -
                          0xDC00)))
                      (jsonStrChars cs3)
                  else .error .invalid
                | _ => .error .invalid
              else if 0xDC00 ≤ hexVal a * 4096 + hexVal b * 256 + hexVal c2 * 16 + hexVal d &&
                  hexVal a * 4096 + hexVal b * 256 + hexVal c2 * 16 + hexVal d < 0xE000 then
                .error .invalid
              else
                jCons (Char.ofNat (hexVal a * 4096 + hexVal b * 256 + hexVal c2 * 16 + hexVal d))
                  (jsonStrChars cs2)
            else .error .invalid
          | _ => .error .invalid
        else .error .invalid
    else if c.toNat < 0x20 then .error .invalid
    else jCons c (jsonStrChars cs)

/-- Lex a JSON number starting at `l` (grammar
`-?(0|[1-9]\d*)(\.\d+)?([eE][+-]?\d+)?`); returns the lexeme and the rest. -/
def jsonNumLex (l : List Char) : Option (List Char × List Char) :=
  let signed : List Char × List Char :=
    match l with
    | '-' :: t => (['-'], t)
    | _ => ([], l)
  match signed.2 with
  | [] => none
  | c :: t =>
    if c = '0' || c.isDigit then
      let intPart : List Char × List Char :=
        if c = '0' then ([c], t)
        else
          let s := t.span (·.isDigit)
          (c :: s.1, s.2)
      let fracPart : Option (List Char × List Char) :=
        match intPart.2 with
        | '.' :: t2 =>
          let s := t2.span (·.isDigit)
          if s.1.isEmpty then none else some ('.' :: s.1, s.2)
        | _ => some ([], intPart.2)
      match fracPart with
      | none => none
      | some fp =>
        let expPart : Option (List Char × List Char) :=
          match fp.2 with
          | e :: t3 =>
            if e = 'e' || e = 'E' then
              let signExp : List Char × List Char :=
                match t3 with
                | s :: t4 => if s = '+' || s = '-' then ([s], t4) else ([], t3)
                | [] => ([], t3)
              let s := signExp.2.span (·.isDigit)
              if s.1.isEmpty then none else some (e :: signExp.1 ++ s.1, s.2)
            else some ([], fp.2)
          | [] => some ([], fp.2)
        match expPart with
        | none => none
        | some ep => some (signed.1 ++ intPart.1 ++ fp.1 ++ ep.1, ep.2)
    else none

/-- Parser state: a value, the element loop of an array (elements parsed
so far), or the member loop of an object. -/
inductive JMode : Type where
  | val
  | elems (acc : List Json)
  | members (acc : List (String × Json))

/-- The recursive core of `json.loads`, fuel-indexed so that it is
structurally recursive (and hence evaluable by the kernel).  The fuel
passed by `jsonLoadsL` always suffices: every step consumes fuel and the
step count is bounded by twice the input length. -/
def jsonRun : Nat → JMode → List Char → Except JErr (Json × List Char)
  | 0, _, _ => .error .invalid
  | fuel + 1, .val, l =>
    match l.dropWhile jsonWsB with
    | [] => .error .invalid
    | c :: cs =>
      if c = '"' then
        match jsonStrChars cs with
        | .ok (s, r) => .ok (.str (String.mk s), r)
        | .error e => .error e
      else if c = lbraceC then
        match cs.dropWhile jsonWsB with
        | [] => .error .invalid
        | c2 :: cs2 =>
          if c2 = rbraceC then .ok (.obj [], cs2)
          else jsonRun fuel (.members []) (c2 :: cs2)
      else if c = '[' then
        match cs.dropWhile jsonWsB with
        | [] => .error .invalid
        | c2 :: cs2 =>
          if c2 = ']' then .ok (.arr [], cs2)
          else jsonRun fuel (.elems []) (c2 :: cs2)
      else if c = 't' then
        match consumeLit "rue".data cs with
        | some r => .ok (.bool true, r)
        | none => .error .invalid
      else if c = 'f' then
        match consumeLit "alse".data cs with
        | some r => .ok (.bool false, r)
        | none => .error .invalid
      else if c = 'n' then
        match consumeLit "ull".data cs with
        | some r => .ok (.null, r)
        | none => .error .invalid
      else if c = 'N' then
        match consumeLit "aN".data cs with
        | some r => .ok (.num "NaN", r)
        | none => .error .invalid
      else if c = 'I' then
        match consumeLit "nfinity".data cs with
        | some r => .ok (.num "Infinity", r)
        | none => .error .invalid
      else if c = '-' then
        match consumeLit "Infinity".data cs with
        | some r => .ok (.num "-Infinity", r)
        | none =>
          match jsonNumLex (c :: cs) with
          | some (lex, r) => .ok (.num (String.mk lex), r)
          | none => .error .invalid
      else if c.isDigit then
        match jsonNumLex (c :: cs) with
        | some (lex, r) => .ok (.num (String.mk lex), r)
        | none => .error .invalid
      else .error .invalid
  | fuel + 1, .elems acc, l =>
    match jsonRun fuel .val l with
    | .error e => .error e
    | .ok (v, r) =>
      match r.dropWhile jsonWsB with
      | ',' :: t => jsonRun fuel (.elems (acc ++ [v])) t
      | ']' :: t => .ok (.arr (acc ++ [v]), t)
      | _ => .error .invalid
  | fuel + 1, .members acc, l =>
    match l with
    | '"' :: t =>
      match jsonStrChars t with
      | .error e => .error e
      | .ok (k, r) =>
        match r.dropWhile jsonWsB with
        | ':' :: t2 =>
          match jsonRun fuel .val t2 with
          | .error e => .error e
          | .ok (v, r2) =>
            match r2.dropWhile jsonWsB with
            | ',' :: t3 =>
              jsonRun fuel (.members (objInsert acc (String.mk k) v)) (t3.dropWhile jsonWsB)
            | c3 :: t3 =>
              if c3 = rbraceC then .ok (.obj (objInsert acc (String.mk k) v), t3)
              else .error .invalid
            | [] => .error .invalid
        | _ => .error .invalid
    | _ => .error .invalid

/-- `json.loads` on a character list: parse one value, then require only
whitespace to remain. -/
def jsonLoadsL (l : List Char) : Except JErr Json :=
  match jsonRun (2 * l.length + 4) .val l with
  | .error e => .error e
  | .ok (v, rest) => if (rest.dropWhile jsonWsB).isEmpty then .ok v else .error .invalid

/-- `json.loads` on a `String`. -/
def jsonLoads (s : String) : Except JErr Json := jsonLoadsL s.data

/-! ### `parse_rows_from_response` -/

/-- Association lookup on parsed object fields (`k in obj` / `obj[k]`). -/
def lookupJ : List (String × Json) → String → Option Json
  | [], _ => none
  | (k, v) :: t, key => if k = key then some v else lookupJ t key

/-- The DataTables-style wrapper keys tried in order. -/
def wrapperKeys : List String := ["data", "rows", "aaData", "results"]

/-- First wrapper key present in the object whose value is a list. -/
def firstWrapper : List String → List (String × Json) → Option (List Json)
  | [], _ => none
  | k :: ks, kvs =>
    match lookupJ kvs k with
    | some (.arr l) => some l
    | _ => firstWrapper ks kvs

/-- Branch 1 of the parser (direct JSON).  `some rows` models a `return`
from that branch; `none` means the branch fell through (guard false,
`json.loads` raised, or the value was neither dict nor list). -/
def directBranchL (raw : List Char) (content_type : String) : Option (List Json) :=
  if pyStartsWith [lbraceC] raw || pyStartsWith ['['] raw ||
      pyStartsWith "application/json".data (asciiLower content_type.data) then
    match jsonLoadsL raw with
    | .error _ => none
    | .ok (.obj kvs) =>
      match firstWrapper wrapperKeys kvs with
      | some l => some l
      | none => some (if kvs.isEmpty then [] else [Json.obj kvs])
    | .ok (.arr xs) => some xs
    | .ok _ => none
  else none

/-- The exceptions `parse_rows_from_response` can raise: the explicit
`RuntimeError`, an `ast.literal_eval` failure, or a `json.loads` failure
in the embedded-literal branch (the branch-1 `json.loads` is guarded by
`try`, these two are not). -/
inductive PErr : Type where
  | runtimeShape (msg : String)
  | literalExn (e : LitErr)
  | jsonExn (e : JErr)
deriving DecidableEq, Repr

/-- `parse_rows_from_response(html_text, content_type)`: `html_text or ""`
stripped, then branch 1 (direct JSON), then branch 2 (embedded
`JSON.parse` literal), else `RuntimeError`. -/
def parse_rows_from_response (html_text : Option String) (content_type : String) :
    Except PErr (List Json) :=
  let raw := pyTrim (html_text.getD "").data
  match directBranchL raw content_type with
  | some rows => .ok rows
  | none =>
    match rxSearch raw with
    | some (q, inner) =>
      match pyUnescape q inner with
      | .error e => .error (.literalExn e)
      | .ok txt =>
        match jsonLoadsL txt with
        | .error e => .error (.jsonExn e)
        | .ok (.arr xs) => .ok xs
        | .ok _ => .ok []
    | none => .error (.runtimeShape "QKB: unexpected search response (no JSON / JSON.parse)")

/-! ### Claim-side construction: wrapping a JSON text as an escaped
JavaScript string literal

`escapeChar` escapes the backslash and the quote character with a
backslash, and writes control and non-ASCII BMP characters as `\uXXXX`
(the unicode escapes the claim describes; astral characters may appear
raw in both JavaScript and Python literals).  `wrapChars` builds the
`response = JSON.parse("...")` body. -/

def hexDigitChar (n : Nat) : Char :=
  if n < 10 then Char.ofNat (48 + n) else Char.ofNat (87 + n)

def hex4 (n : Nat) : List Char :=
  [hexDigitChar (n / 4096 % 16), hexDigitChar (n / 256 % 16),
   hexDigitChar (n / 16 % 16), hexDigitChar (n % 16)]

def escapeChar (q : Char) (c : Char) : List Char :=
  if c = '\\' then ['\\', '\\']
  else if c = q then ['\\', q]
  else if c.toNat < 0x20 || (0x80 ≤ c.toNat && c.toNat < 0x10000) then
    '\\' :: 'u' :: hex4 c.toNat
  else [c]

def escapeList (q : Char) : List Char → List Char
  | [] => []
  | c :: cs => escapeChar q c ++ escapeList q cs

/-- The escaped JavaScript string-literal content for `s`. -/
def escapeJs (q : Char) (s : String) : String := String.mk (escapeList q s.data)

/-- `response = JSON.parse(<q><lit><q>)` as characters. -/
def wrapChars (q : Char) (lit : List Char) : List Char :=
  "response = JSON.parse(".data ++ q :: (lit ++ [q, ')'])

/-- The full body wrapping JSON text `s` as an escaped literal. -/
def wrapJs (q : Char) (s : String) : String :=
  String.mk (wrapChars q (escapeList q s.data))

/-- No position inside `lit` at which the quote character is followed by
`\s*\)` — the condition under which the lazy group captures the whole
literal. -/
def noEarlyClose (q : Char) : List Char → Bool
  | [] => true
  | c :: cs => !(c = q && closeAfter cs) && noEarlyClose q cs

/-! ### A small dataframe model and `normalize_dataframe`

A dataframe is an ordered column list with rows of cells aligned to it;
`none` cells are `NaN`/`pd.NA`.  This models exactly the pandas
operations the source uses: construction from a list of dicts, `rename`,
column assignment, `to_datetime` on one column, column selection, and
`assign`. -/

/-- A cell value: a JSON value carried into the frame, or a parsed
timestamp (`pd.to_datetime` result). -/
inductive PVal : Type where
  | js (j : Json)
  | date (y m d : Nat)

/-- A dataframe cell; `none` is `NaN`/`pd.NA`. -/
abbrev Cell : Type := Option PVal

/-- An ordered-column dataframe. -/
structure DFrame where
  cols : List String
  rows : List (List Cell)

/-- `pd.DataFrame(records)` for a list of dicts: columns in order of first
appearance, missing keys become `NaN`. -/
def mkDF (records : List (List (String × Json))) : DFrame :=
  let cols := records.foldl
    (fun acc r => r.foldl (fun a2 kv => if a2.contains kv.1 then a2 else a2 ++ [kv.1]) acc) []
  ⟨cols, records.map fun r => cols.map fun c => (lookupJ r c).map PVal.js⟩

/-- The `df.rename(columns={...})` mapping of the source. -/
def renameQkb (c : String) : String :=
  if c = "nipti" then "nipt"
  else if c = "emriISubjektit" then "name"
  else if c = "emriTregtar" then "trade_name"
  else if c = "sektoriIVeprimtarise" then "sector"
  else if c = "formaLigjore" then "legal_form"
  else if c = "statusiISubjektit" then "status"
  else if c = "qyteti" then "city"
  else if c = "shtetesia" then "citizenship"
  else c

/-- Days in a month (for `%d/%m/%Y` validity). -/
def daysInMonth (y m : Nat) : Nat :=
  if m = 2 then (if y % 4 = 0 && (y % 100 ≠ 0 || y % 400 = 0) then 29 else 28)
  else if m = 4 || m = 6 || m = 9 || m = 11 then 30
  else 31

/-- `pd.to_datetime(..., format="%d/%m/%Y", errors="coerce")` on one cell:
a string of that shape with a valid calendar date parses, anything else
coerces to `NaT` (`none`). -/
def parseDMY (c : Cell) : Cell :=
  match c with
  | some (.js (.str s)) =>
    match s.data.splitOnP (· = '/') with
    | [ds, ms, ys] =>
      if !ds.isEmpty && !ms.isEmpty && !ys.isEmpty &&
          ds.all (·.isDigit) && ms.all (·.isDigit) && ys.all (·.isDigit) &&
          ds.length ≤ 2 && ms.length ≤ 2 && ys.length ≤ 4 then
        let d := ds.foldl (fun a c => a * 10 + (c.toNat - 48)) 0
        let m := ms.foldl (fun a c => a * 10 + (c.toNat - 48)) 0
        let y := ys.foldl (fun a c => a * 10 + (c.toNat - 48)) 0
        if 1 ≤ m && m ≤ 12 && 1 ≤ d && d ≤ daysInMonth y m then some (.date y m d)
        else none
      else none
    | _ => none
  | _ => none

/-- Apply `f` to the cells of column `col`. -/
def colTransform (df : DFrame) (col : String) (f : Cell → Cell) : DFrame :=
  ⟨df.cols, df.rows.map fun row => (df.cols.zip row).map fun p => if p.1 = col then f p.2 else p.2⟩

/-- `df[c] = pd.NA` when `c` is absent (appends the column). -/
def assignNA (df : DFrame) (c : String) : DFrame :=
  if df.cols.contains c then df else ⟨df.cols ++ [c], df.rows.map (· ++ [(none : Cell)])⟩

/-- Cell of a row at a named column. -/
def cellAt : List String → List Cell → String → Cell
  | [], _, _ => none
  | _ :: _, [], _ => none
  | c :: cs, v :: vs, key => if c = key then v else cellAt cs vs key

/-- `df[cs]`: select columns in the given order. -/
def selectCols (df : DFrame) (cs : List String) : DFrame :=
  ⟨cs, df.rows.map fun row => cs.map fun c => cellAt df.cols row c⟩

/-- `df.assign(c=v)` with a scalar: replaces the column in place if
present, else appends it. -/
def assignConst (df : DFrame) (c : String) (v : Cell) : DFrame :=
  if df.cols.contains c then
    ⟨df.cols, df.rows.map fun row => (df.cols.zip row).map fun p => if p.1 = c then v else p.2⟩
  else ⟨df.cols ++ [c], df.rows.map (· ++ [v])⟩

/-- The fixed schema columns selected by the source. -/
def fixedCols : List String :=
  ["nipt", "name", "trade_name", "sector", "owners", "legal_form", "status",
   "city", "citizenship", "registered_at"]

/-- `normalize_dataframe(rows, keyword)`. -/
def normalize_dataframe (records : List (List (String × Json))) (keyword : String) : DFrame :=
  let df := mkDF records
  if df.rows.isEmpty || df.cols.isEmpty then
    assignConst (assignConst (mkDF [[("_keyword", Json.str keyword)]]) "nipt" none) "name" none
  else
    let df1 : DFrame := ⟨df.cols.map renameQkb, df.rows⟩
    let df2 := if df1.cols.contains "registered_at" then
        colTransform df1 "registered_at" parseDMY
      else df1
    let df3 := fixedCols.foldl assignNA df2
    assignConst (selectCols df3 fixedCols) "_keyword" (some (.js (.str keyword)))

/-- Split on a separator character keeping empty segments (Python
`str.split(sep)`). -/
def splitOnCh (sep : Char) (l : List Char) : List (List Char) :=
  l.foldr
    (fun c acc =>
      if c = sep then [] :: acc
      else
        match acc with
        | [] => [[c]]
        | w :: ws => (c :: w) :: ws)
    [[]]

/-- `_split_people`: split on `;`, strip entries, drop falsy entries. -/
def split_people (s : Option String) : List String :=
  (((splitOnCh ';' (s.getD "").data).map fun w => pyStripS (String.mk w)).filter
    fun x => !(x == ""))

/-! ### Orchestrator rows, dedup, the contact cap, and failure isolation

After `pd.concat`, the accumulated frame is modelled as a list of rows
with the fields the orchestrator-level claims read: the identifier
column `nipt`, the query column `_keyword`, and the `_error` column of
failure rows. -/

structure Row where
  nipt : Option String
  keyword : String
  error : Option String := none
deriving DecidableEq, Repr

/-- `pandas.drop_duplicates(subset=key, keep="first")` (NaN keys compare
equal, as in pandas): keep a row iff its key has not been seen earlier. -/
def pdDropDupGo {α κ : Type} [DecidableEq κ] (key : α → κ) : List κ → List α → List α
  | _, [] => []
  | seen, x :: xs =>
    if key x ∈ seen then pdDropDupGo key seen xs
    else x :: pdDropDupGo key (key x :: seen) xs

/-- `drop_duplicates(keep="first")` by a key. -/
def drop_duplicates {α κ : Type} [DecidableEq κ] (key : α → κ) (l : List α) : List α :=
  pdDropDupGo key [] l

/-- Specification-style first-occurrence filter: keep the head, drop every
later element with the same key, recurse. -/
def keepFirstBy {α κ : Type} [DecidableEq κ] (key : α → κ) : List α → List α
  | [] => []
  | x :: xs => x :: keepFirstBy key (xs.filter fun y => !decide (key y = key x))
termination_by l => l.length
decreasing_by simp only [List.length_cons]; exact Nat.lt_succ_of_le (List.length_filter_le _ _)

/-- Code-point lexicographic `<` on character lists (Python string `<`). -/
def strLtB : List Char → List Char → Bool
  | [], [] => false
  | [], _ :: _ => true
  | _ :: _, [] => false
  | a :: as, b :: bs =>
    if a.toNat < b.toNat then true else if a.toNat = b.toNat then strLtB as bs else false

/-- Code-point lexicographic `≤` on character lists. -/
def strLeB : List Char → List Char → Bool
  | [], _ => true
  | _ :: _, [] => false
  | a :: as, b :: bs => a.toNat < b.toNat || (a.toNat = b.toNat && strLeB as bs)

/-- Sort key of `sort_values(["nipt", "_keyword"])`: missing identifiers
sort last (pandas `na_position="last"`), then identifier, then keyword. -/
def rowKey (r : Row) : Bool × List Char × List Char :=
  match r.nipt with
  | none => (true, [], r.keyword.data)
  | some x => (false, x.data, r.keyword.data)

/-- Lexicographic `≤` on (identifier, keyword) character lists. -/
def strPairLeB (x1 k1 x2 k2 : List Char) : Bool :=
  strLtB x1 x2 || (x1 == x2 && strLeB k1 k2)

/-- Lexicographic `≤` on sort keys. -/
def keyLe (a b : Bool × List Char × List Char) : Bool :=
  (!a.1 && b.1) || (a.1 == b.1 && strPairLeB a.2.1 a.2.2 b.2.1 b.2.2)

/-- Row comparison of the global-dedup sort. -/
def rowLe (a b : Row) : Prop := keyLe (rowKey a) (rowKey b) = true

instance : DecidableRel rowLe := fun a b =>
  inferInstanceAs (Decidable (keyLe (rowKey a) (rowKey b) = true))

/-- `df.sort_values(["nipt", "_keyword"])` (stable, ascending, NaN last). -/
def sortRows (l : List Row) : List Row := List.insertionSort rowLe l

/-- Per-run dedup: `df.drop_duplicates(subset=["nipt", "_keyword"], keep="first")`. -/
def runDedup (l : List Row) : List Row := drop_duplicates (fun r => (r.nipt, r.keyword)) l

/-- Global dedup of `/scrape`: sort by identifier then keyword, then
`drop_duplicates(subset=["nipt"], keep="first")`. -/
def globalDedup (l : List Row) : List Row := drop_duplicates (fun r => r.nipt) (sortRows l)

/-- The error row accumulated when a keyword's search raises:
`pd.DataFrame([{"_keyword": kw, "_error": str(e)}])`. -/
def errorRow (kw msg : String) : Row := ⟨none, kw, some msg⟩

/-- The per-keyword loop of `run_scrape`: one frame per keyword, a search
failure contributing a single error row instead of aborting.  `search`
is the outcome oracle of `search_keyword` (any raised exception on the
error side). -/
def framesOf (search : String → Except String (List Row)) (kws : List String) :
    List (List Row) :=
  kws.map fun kw =>
    match search kw with
    | .ok rs => rs
    | .error e => [errorRow kw e]

/-- `pd.concat(frames)`: the accumulated row sequence of a run. -/
def accumRows (search : String → Except String (List Row)) (kws : List String) : List Row :=
  (framesOf search kws).flatten

/-- Truthiness of `pd.notna(nipt) and str(nipt).strip()`. -/
def validNipt : Option String → Bool
  | none => false
  | some s => !(pyStripS s == "")

/-- The capped contact loop of `run_scrape`: scanning rows in order with
attempt counter `n`, a fetch is attempted iff the identifier is valid and
`n < max_contacts`; the counter increments on every attempt; other rows
get `(None, None)`. -/
def contactsGo (fetch : String → Option String × Option String) (maxC : Int) :
    Nat → List Row → List (Row × Option String × Option String)
  | _, [] => []
  | n, r :: rs =>
    if validNipt r.nipt && decide ((n : Int) < maxC) then
      (r, fetch (pyStripS (r.nipt.getD ""))) :: contactsGo fetch maxC (n + 1) rs
    else (r, (none, none)) :: contactsGo fetch maxC n rs

/-- The contact loop started with counter 0. -/
def contactsLoop (fetch : String → Option String × Option String) (maxC : Int)
    (rows : List Row) : List (Row × Option String × Option String) :=
  contactsGo fetch maxC 0 rows

/-- Number of rows with a valid identifier. -/
def countValid (rows : List Row) : Nat := rows.countP fun r => validNipt r.nipt

/-- The value of the attempt counter after scanning a list of rows
starting from `n` (the count of attempted fetches). -/
def fetchCount (maxC : Int) : Nat → List Row → Nat
  | n, [] => n
  | n, r :: rs =>
    if validNipt r.nipt && decide ((n : Int) < maxC) then fetchCount maxC (n + 1) rs
    else fetchCount maxC n rs

/-! ### `extract_contacts_for_nipt`

The extractor is embedded as a computation in `Except PyExn` over an
environment of effect oracles (one call's network fetch, base64 decode,
temp-file write, pdfplumber availability and page texts, and the two
regex searches — each a pure total search in the source).  The result
type `Except PyExn (Option String × Option String)` is the observable
behaviour including raising; the source's top-level `try/except
Exception` appears as the catch in `extract_contacts_for_nipt`. -/

structure HttpResp where
  contentType : String
  text : String

inductive PyExn : Type where
  | transport
  | jsonDecode
  | attrError
  | b64Error
  | ioError
  | pdfError
deriving DecidableEq, Repr

structure DocEnv where
  fetch : Except PyExn HttpResp
  b64decode : String → Except PyExn (List Nat)
  tmpWrite : List Nat → Except PyExn Unit
  pdfAvailable : Bool
  pdfPages : List Nat → Except PyExn (List (Option String))
  findEmail : String → Option String
  findPhone : String → Option String

/-- Python truthiness of a decoded JSON value (`if not pdf_b64`); the
numeric case is zero-ness of the lexeme's mantissa. -/
def jsonFalsy : Json → Bool
  | .null => true
  | .bool b => !b
  | .num lex =>
    let ms := (lex.data.takeWhile fun c => !(c = 'e' || c = 'E')).filter (·.isDigit)
    !ms.isEmpty && ms.all (· = '0')
  | .str s => s.isEmpty
  | .arr l => l.isEmpty
  | .obj l => l.isEmpty

/-- `" ".join(t.split())`: collapse whitespace runs to single spaces. -/
def pyNormWs (s : String) : String :=
  String.intercalate " "
    (((s.data.splitOnP pyWs).filter fun w => !w.isEmpty).map String.mk)

/-- The body of the `try:` block of `extract_contacts_for_nipt`; an
`.error` is an exception reaching the top-level handler. -/
def extractBody (env : DocEnv) : Except PyExn (Option String × Option String) :=
  match env.fetch with
  | .error e => .error e
  | .ok r =>
    match jsonLoads r.text with
    | .error _ => .error .jsonDecode
    | .ok data =>
      match data with
      | .obj kvs =>
        match lookupJ kvs "data" with
        | none => .ok (none, none)
        | some v =>
          if jsonFalsy v then .ok (none, none)
          else
            match v with
            | .str s =>
              match env.b64decode s with
              | .error e => .error e
              | .ok bytes =>
                match env.tmpWrite bytes with
                | .error e => .error e
                | .ok _ =>
                  if env.pdfAvailable then
                    match env.pdfPages bytes with
                    | .error e => .error e
                    | .ok pages =>
                      let chunks := pages.map fun t => pyNormWs (t.getD "")
                      let combined := String.intercalate "\n" chunks
                      let email0 := (env.findEmail combined).map pyStripS
                      let phone0 := (env.findPhone combined).map pyStripS
                      if email0.isNone || phone0.isNone then
                        let first := chunks.headD ""
                        .ok
                          (match email0 with
                           | some e => some e
                           | none => (env.findEmail first).map pyStripS,
                           match phone0 with
                           | some p => some p
                           | none => (env.findPhone first).map pyStripS)
                      else .ok (email0, phone0)
                  else .ok (none, none)
            | _ => .error .b64Error
      | _ => .error .attrError

/-- `extract_contacts_for_nipt`: the falsy-identifier early return, then
the `try:` body with every exception absorbed into `(None, None)`. -/
def extract_contacts_for_nipt (env : DocEnv) (nipt : String) :
    Except PyExn (Option String × Option String) :=
  if nipt = "" then .ok (none, none)
  else
    match extractBody env with
    | .ok p => .ok p
    | .error _ => .ok (none, none)

/-! ### The `/download` handler and `os.path.abspath` -/

/-- `os.path.normpath` (POSIX): drop `.` and empty components, resolve
`..`, preserve one (or exactly two) leading slashes. -/
def normPath (p : String) : String :=
  if p = "" then "."
  else
    let l := p.data
    let slashes : Nat :=
      match l with
      | '/' :: '/' :: '/' :: _ => 1
      | '/' :: '/' :: _ => 2
      | '/' :: _ => 1
      | _ => 0
    let comps := (splitOnCh '/' l).filter fun c => !c.isEmpty && !(c = ['.'])
    let newComps := comps.foldl
      (fun acc c =>
        if c = ['.', '.'] then
          if (slashes = 0 && acc.isEmpty) || (!acc.isEmpty && acc.getLast? = some ['.', '.']) then
            acc ++ [c]
          else if !acc.isEmpty then acc.dropLast
          else acc
        else acc ++ [c])
      []
    let joined := List.intercalate ['/'] newComps
    let pre : List Char := if slashes = 2 then ['/', '/'] else if slashes = 1 then ['/'] else []
    if pre.isEmpty && joined.isEmpty then "." else String.mk (pre ++ joined)

/-- `os.path.abspath` with an explicit working directory:
`normpath(join(cwd, p))`. -/
def abspath (cwd p : String) : String :=
  normPath (if pyStartsWith ['/'] p.data then p else cwd ++ "/" ++ p)

/-- Outcomes of the `/download` handler. -/
inductive DownloadResp : Type where
  | invalidPath
  | notFound
  | fileResp (path : String)
deriving DecidableEq, Repr

/-- The `/download` handler: absolutise the request path, require the
string to start with the absolutised export directory, then serve the
file when it exists. -/
def download (cwd exportDir : String) (fileExists : String → Bool)
    (pathArg : Option String) : DownloadResp :=
  let fpath := abspath cwd (pathArg.getD "")
  if fpath = "" || !pyStartsWith (abspath cwd exportDir).data fpath.data then .invalidPath
  else if !fileExists fpath then .notFound
  else .fileResp fpath

/-- Containment as the spec states it (modelled from the spec's words
"resolves within the configured export directory", for comparison with
the handler's string check): the resolved path is the export directory or
lies strictly inside it. -/
def resolvesWithin (cwd exportDir p : String) : Bool :=
  let d := abspath cwd exportDir
  let f := abspath cwd p
  f == d || pyStartsWith (d ++ "/").data f.data

/-! ## Theorems for the claims -/

/-- C2: the download handler's boundary check is a plain string-prefix
test on the absolutised path, so a sibling directory whose name extends
the export directory's name passes the check: with working directory
`/app` and the default `EXPORT_DIR = "exports"`, the existing file
`/app/exportsevil/leak.csv` is served although it does not resolve
within `/app/exports`.  This contradicts the claim (and the handler's
own comment "we only serve from EXPORT_DIR"). -/
theorem download_escape_bug :
    download "/app" "exports" (fun p => p == "/app/exportsevil/leak.csv")
        (some "/app/exportsevil/leak.csv") = .fileResp "/app/exportsevil/leak.csv" ∧
    resolvesWithin "/app" "exports" "/app/exportsevil/leak.csv" = false :=
  ⟨rfl, rfl⟩

/-- C3 counterexample: on an empty record sequence the source builds
`pd.DataFrame([{"_keyword": kw}]).assign(nipt=NA, name=NA)`, whose
columns are exactly `_keyword, nipt, name` — the other fixed-schema
columns (e.g. `trade_name`) are absent, and `_keyword` comes first, so
the claimed "every other fixed column present and null in declared
order" fails. -/
theorem normalize_empty_counterexample :
    (normalize_dataframe [] "kw").cols = ["_keyword", "nipt", "name"] ∧
    "trade_name" ∉ (normalize_dataframe [] "kw").cols :=
  ⟨rfl, by decide⟩

/-- C3 (amended): for every keyword `kw`, `normalize_dataframe [] kw`
returns exactly one row whose `_keyword` is `kw` and whose only other
columns are `nipt` and `name`, both null, in the order
`_keyword, nipt, name`; the remaining fixed-schema columns are absent. -/
theorem normalize_empty_amended (kw : String) :
    normalize_dataframe [] kw =
      ⟨["_keyword", "nipt", "name"], [[some (.js (.str kw)), none, none]]⟩ :=
  rfl

/-- C4: the splitting helper `_split_people` behaves exactly as the claim
describes (`"A; B ;C"` ↦ `["A","B","C"]`), but `normalize_dataframe`
never invokes it: on a record carrying the administrator/shareholder
field, the produced row's `owners` column is null, not the split list —
the helper is dead code, contradicting the module's own description of
normalizing `owners`. -/
theorem owners_split_bug :
    split_people (some "A; B ;C") = ["A", "B", "C"] ∧
    "owners" ∈ (normalize_dataframe [[("aksionerOrtak", Json.str "A; B ;C")]] "kw").cols ∧
    cellAt (normalize_dataframe [[("aksionerOrtak", Json.str "A; B ;C")]] "kw").cols
      ((normalize_dataframe [[("aksionerOrtak", Json.str "A; B ;C")]] "kw").rows.headD [])
      "owners" = none :=
  ⟨rfl, by decide, rfl⟩

/-- C10: on the body `response = JSON.parse("[1,2")` the embedded pattern
matches and the captured literal unescapes cleanly, but the unescaped
text is not valid JSON, so `parse_rows_from_response` raises the
(unguarded) `json.loads` failure — an exception distinct from the
declared `RuntimeError` shape failure. -/
theorem embedded_branch_unguarded :
    parse_rows_from_response (some "response = JSON.parse(\"[1,2\")") "" =
      .error (.jsonExn .invalid) ∧
    ∀ msg, PErr.jsonExn .invalid ≠ PErr.runtimeShape msg :=
  ⟨rfl, fun _ h => by cases h⟩

/-- C9: a failed keyword is isolated: the accumulated rows of a run whose
keyword list contains a failing keyword decompose as the rows of the
preceding keywords, then exactly the single error row carrying that
keyword and the failure description, then the rows of the remaining
keywords (which are processed normally). -/
theorem keyword_failure_isolation (search : String → Except String (List Row))
    (pre post : List String) (kw e : String) (h : search kw = .error e) :
    accumRows search (pre ++ kw :: post) =
      accumRows search pre ++ [errorRow kw e] ++ accumRows search post ∧
    framesOf search (pre ++ kw :: post) =
      framesOf search pre ++ [[errorRow kw e]] ++ framesOf search post ∧
    (errorRow kw e).keyword = kw ∧ (errorRow kw e).error = some e := by
  refine ⟨?_, ?_, rfl, rfl⟩ <;>
    simp [accumRows, framesOf, h]

/-- C9 witness: a concrete three-keyword run whose middle keyword fails. -/
theorem keyword_failure_isolation_witness :
    accumRows
        (fun kw => if kw = "bad" then .error "boom" else .ok [⟨some "a", kw, none⟩])
        (["good"] ++ "bad" :: ["tail"]) =
      accumRows (fun kw => if kw = "bad" then .error "boom" else .ok [⟨some "a", kw, none⟩])
          ["good"] ++
        [errorRow "bad" "boom"] ++
        accumRows (fun kw => if kw = "bad" then .error "boom" else .ok [⟨some "a", kw, none⟩])
          ["tail"] :=
  (keyword_failure_isolation
    (fun kw => if kw = "bad" then .error "boom" else .ok [⟨some "a", kw, none⟩])
    ["good"] ["tail"] "bad" "boom" rfl).1

/-! ### C6: the contact-fetch cap -/

theorem contactsGo_length (fetch : String → Option String × Option String) (maxC : Int) :
    ∀ (rows : List Row) (n : Nat), (contactsGo fetch maxC n rows).length = rows.length := by
  intro rows
  induction rows with
  | nil => intro n; rfl
  | cons x xs ih =>
    intro n
    by_cases h : (validNipt x.nipt && decide ((n : Int) < maxC)) = true <;>
      simp [contactsGo, h, ih]

theorem contactsGo_getElem (fetch : String → Option String × Option String) (maxC : Int) :
    ∀ (rows : List Row) (n i : Nat) (r : Row), rows[i]? = some r →
      (contactsGo fetch maxC n rows)[i]? =
        some (if validNipt r.nipt && decide ((fetchCount maxC n (rows.take i) : Int) < maxC)
              then (r, fetch (pyStripS (r.nipt.getD "")))
              else (r, (none, none))) := by
  intro rows
  induction rows with
  | nil => intro n i r h; simp at h
  | cons x xs ih =>
    intro n i r hget
    cases i with
    | zero =>
      have hx : x = r := by simpa using hget
      subst hx
      by_cases h : (validNipt x.nipt && decide ((n : Int) < maxC)) = true
      · simp only [contactsGo, List.take_zero, fetchCount, if_pos h, List.getElem?_cons_zero]
      · simp only [contactsGo, List.take_zero, fetchCount, if_neg h, List.getElem?_cons_zero]
    | succ j =>
      have hget' : xs[j]? = some r := by simpa using hget
      by_cases h : (validNipt x.nipt && decide ((n : Int) < maxC)) = true
      · simp only [contactsGo, if_pos h, List.getElem?_cons_succ, List.take_succ_cons,
          fetchCount]
        exact ih (n + 1) j r hget'
      · simp only [contactsGo, if_neg h, List.getElem?_cons_succ, List.take_succ_cons,
          fetchCount]
        exact ih n j r hget'

theorem fetchCount_min (maxC : Int) (l : List Row) :
    ∀ n : Nat, (n : Int) ≤ maxC →
      (fetchCount maxC n l : Int) = min maxC (n + countValid l) := by
  induction l with
  | nil => intro n hn; simp only [fetchCount, countValid, List.countP_nil]; omega
  | cons x xs ih =>
    intro n hn
    by_cases hv : validNipt x.nipt = true
    · by_cases hlt : (n : Int) < maxC
      · have : (fetchCount maxC n (x :: xs) : Int) = (fetchCount maxC (n + 1) xs : Int) := by
          simp [fetchCount, hv, hlt]
        rw [this, ih (n + 1) (by omega)]
        simp only [countValid, List.countP_cons, hv]
        push_cast
        omega
      · have : (fetchCount maxC n (x :: xs) : Int) = (fetchCount maxC n xs : Int) := by
          simp [fetchCount, hv, hlt]
        rw [this, ih n hn]
        simp only [countValid, List.countP_cons, hv]
        push_cast
        omega
    · have : (fetchCount maxC n (x :: xs) : Int) = (fetchCount maxC n xs : Int) := by
        simp [fetchCount, hv]
      rw [this, ih n hn]
      simp only [countValid, List.countP_cons, hv]
      push_cast
      omega

/-- C6: the capped contact loop preserves the row sequence; scanning in
order, row `i` gets a fetch attempt iff its identifier is non-null and
non-empty and the count of attempted fetches so far (`fetchCount`,
which increments on every attempt regardless of the fetch's result) is
below `max_contacts`, and every other row gets null email and phone
without an attempt; for a non-negative cap the total number of attempts
is `min max_contacts (number of valid-identifier rows)`. -/
theorem contact_cap (fetch : String → Option String × Option String) (maxC : Int)
    (rows : List Row) :
    (contactsLoop fetch maxC rows).length = rows.length ∧
    (∀ i r, rows[i]? = some r →
      (contactsLoop fetch maxC rows)[i]? =
        some (if validNipt r.nipt && decide ((fetchCount maxC 0 (rows.take i) : Int) < maxC)
              then (r, fetch (pyStripS (r.nipt.getD "")))
              else (r, (none, none)))) ∧
    ((0 : Int) ≤ maxC → (fetchCount maxC 0 rows : Int) = min maxC (countValid rows)) := by
  refine ⟨contactsGo_length fetch maxC rows 0,
    fun i r h => contactsGo_getElem fetch maxC rows 0 i r h,
    fun h0 => ?_⟩
  have := fetchCount_min maxC rows 0 h0
  simpa using this

def wRows : List Row :=
  [⟨some "a", "k", none⟩, ⟨some "b", "k", none⟩, ⟨some "c", "k", none⟩,
   ⟨some "d", "k", none⟩, ⟨some "e", "k", none⟩]

/-- C6 witness: five rows with valid identifiers and `max_contacts = 2`:
the fifth row gets null/null without an attempt, and exactly
`min 2 5 = 2` fetches are attempted. -/
theorem contact_cap_witness :
    (contactsLoop (fun s => (some s, some "p")) 2 wRows)[4]? =
      some (⟨some "e", "k", none⟩, (none, none)) ∧
    (fetchCount 2 0 wRows : Int) = min 2 (countValid wRows) :=
  ⟨((contact_cap (fun s => (some s, some "p")) 2 wRows).2.1 4 ⟨some "e", "k", none⟩
      rfl).trans (by decide),
   (contact_cap (fun s => (some s, some "p")) 2 wRows).2.2 (by decide)⟩

/-! ### C7: totality of contact extraction -/

theorem extractBody_pdfFalse (env : DocEnv) (h : env.pdfAvailable = false) :
    ∀ p, extractBody env = .ok p → p = (none, none) := by
  intro p hp
  unfold extractBody at hp
  repeat (any_goals (split at hp))
  all_goals simp_all

/-- C7: the contact extraction never raises: for every environment (any
fetch outcome, any response bytes, malformed base64, absent PDF library,
any page texts) and every identifier, `extract_contacts_for_nipt`
returns a pair; every internal failure of the body, a falsy identifier,
and an absent PDF library all yield `(null, null)`. -/
theorem extract_total (env : DocEnv) (nipt : String) :
    (∃ p, extract_contacts_for_nipt env nipt = .ok p) ∧
    (∀ e, extractBody env = .error e → extract_contacts_for_nipt env nipt = .ok (none, none)) ∧
    (nipt = "" → extract_contacts_for_nipt env nipt = .ok (none, none)) ∧
    (env.pdfAvailable = false → extract_contacts_for_nipt env nipt = .ok (none, none)) := by
  refine ⟨?_, ?_, ?_, ?_⟩
  · unfold extract_contacts_for_nipt
    by_cases h : nipt = ""
    · exact ⟨(none, none), by simp [h]⟩
    · rcases hb : extractBody env with e | p
      · exact ⟨(none, none), by simp [h, hb]⟩
      · exact ⟨p, by simp [h, hb]⟩
  · intro e he
    unfold extract_contacts_for_nipt
    by_cases h : nipt = "" <;> simp [h, he]
  · intro h; simp [extract_contacts_for_nipt, h]
  · intro hpdf
    unfold extract_contacts_for_nipt
    by_cases h : nipt = ""
    · simp [h]
    · rcases hb : extractBody env with e | p
      · simp [h, hb]
      · have := extractBody_pdfFalse env hpdf p hb
        simp [h, hb, this]

def wEnv : DocEnv :=
  ⟨.error .transport, fun _ => .error .b64Error, fun _ => .error .ioError, false,
   fun _ => .error .pdfError, fun _ => none, fun _ => none⟩

/-- C7 witness: a concrete environment whose fetch raises: the extractor
returns `(null, null)` instead of propagating the exception. -/
theorem extract_total_witness :
    extract_contacts_for_nipt wEnv "K12345678A" = .ok (none, none) :=
  (extract_total wEnv "K12345678A").2.1 .transport rfl

/-! ### C5: deduplication semantics

`pdDropDupGo` is the embedding of pandas `duplicated`/`drop_duplicates`
(a seen-set scan); `keepFirstBy` is the claim's phrasing (keep the first
occurrence of each key, remove later duplicates).  The lemmas below
equate them and establish the order facts about the global-dedup sort. -/

theorem strLeB_total : ∀ a b : List Char, strLeB a b = true ∨ strLeB b a = true := by
  intro a
  induction a with
  | nil => intro b; left; rfl
  | cons x xs ih =>
    intro b
    cases b with
    | nil => right; rfl
    | cons y ys =>
      simp only [strLeB, Bool.or_eq_true, decide_eq_true_eq, Bool.and_eq_true]
      rcases Nat.lt_trichotomy x.toNat y.toNat with h | h | h
      · exact Or.inl (Or.inl h)
      · rcases ih ys with h2 | h2
        · exact Or.inl (Or.inr ⟨h, h2⟩)
        · exact Or.inr (Or.inr ⟨h.symm, h2⟩)
      · exact Or.inr (Or.inl h)

theorem strLeB_trans : ∀ a b c : List Char,
    strLeB a b = true → strLeB b c = true → strLeB a c = true := by
  intro a
  induction a with
  | nil => intro b c _ _; rfl
  | cons x xs ih =>
    intro b c hab hbc
    cases b with
    | nil => simp [strLeB] at hab
    | cons y ys =>
      cases c with
      | nil => simp [strLeB] at hbc
      | cons z zs =>
        simp only [strLeB, Bool.or_eq_true, decide_eq_true_eq, Bool.and_eq_true] at hab hbc ⊢
        rcases hab with h1 | ⟨h1, h1'⟩ <;> rcases hbc with h2 | ⟨h2, h2'⟩
        · exact Or.inl (by omega)
        · exact Or.inl (by omega)
        · exact Or.inl (by omega)
        · exact Or.inr ⟨by omega, ih ys zs h1' h2'⟩

theorem charEq_of_toNat {a b : Char} (h : a.toNat = b.toNat) : a = b := by
  exact Char.ext (UInt32.ext h)

theorem strLtB_trichotomy : ∀ a b : List Char,
    strLtB a b = true ∨ a = b ∨ strLtB b a = true := by
  intro a
  induction a with
  | nil =>
    intro b
    cases b with
    | nil => exact Or.inr (Or.inl rfl)
    | cons y ys => exact Or.inl rfl
  | cons x xs ih =>
    intro b
    cases b with
    | nil => exact Or.inr (Or.inr rfl)
    | cons y ys =>
      rcases Nat.lt_trichotomy x.toNat y.toNat with h | h | h
      · left; simp [strLtB, h]
      · have hxy : x = y := charEq_of_toNat h
        subst hxy
        rcases ih ys with h2 | h2 | h2
        · left; simp [strLtB, h2]
        · exact Or.inr (Or.inl (by rw [h2]))
        · right; right; simp [strLtB, h2]
      · right; right; simp [strLtB, h]

theorem strLtB_trans : ∀ a b c : List Char,
    strLtB a b = true → strLtB b c = true → strLtB a c = true := by
  intro a
  induction a with
  | nil =>
    intro b c hab hbc
    cases b with
    | nil => simp [strLtB] at hab
    | cons y ys =>
      cases c with
      | nil => simp [strLtB] at hbc
      | cons z zs => rfl
  | cons x xs ih =>
    intro b c hab hbc
    cases b with
    | nil => simp [strLtB] at hab
    | cons y ys =>
      cases c with
      | nil => simp [strLtB] at hbc
      | cons z zs =>
        simp only [strLtB] at hab hbc ⊢
        by_cases h1 : x.toNat < y.toNat <;> by_cases h2 : y.toNat < z.toNat <;>
          simp_all only [if_pos, if_neg, if_true, if_false]
        · simp only [if_pos (by omega : x.toNat < z.toNat)]
        · by_cases h3 : y.toNat = z.toNat
          · simp only [if_pos (by omega : x.toNat < z.toNat)]
          · simp [h3] at hbc
        · by_cases h3 : x.toNat = y.toNat
          · simp only [if_pos (by omega : x.toNat < z.toNat)]
          · simp [h3] at hab
        · by_cases h3 : x.toNat = y.toNat <;> by_cases h4 : y.toNat = z.toNat
          · have : ¬ x.toNat < z.toNat := by omega
            simp only [if_neg this, if_pos (by omega : x.toNat = z.toNat)]
            exact ih ys zs (by simpa [h3] using hab) (by simpa [h4] using hbc)
          · simp [h4] at hbc
          · simp [h3] at hab
          · simp [h3] at hab

theorem strPairLeB_total (x1 k1 x2 k2 : List Char) :
    strPairLeB x1 k1 x2 k2 = true ∨ strPairLeB x2 k2 x1 k1 = true := by
  rcases strLtB_trichotomy x1 x2 with h | h | h
  · left; simp [strPairLeB, h]
  · subst h
    rcases strLeB_total k1 k2 with h2 | h2
    · left; simp [strPairLeB, h2]
    · right; simp [strPairLeB, h2]
  · right; simp [strPairLeB, h]

theorem strPairLeB_trans (x1 k1 x2 k2 x3 k3 : List Char)
    (hab : strPairLeB x1 k1 x2 k2 = true) (hbc : strPairLeB x2 k2 x3 k3 = true) :
    strPairLeB x1 k1 x3 k3 = true := by
  simp only [strPairLeB, Bool.or_eq_true, Bool.and_eq_true, beq_iff_eq] at hab hbc ⊢
  rcases hab with h1 | ⟨rfl, h1'⟩ <;> rcases hbc with h2 | ⟨h2e, h2'⟩
  · exact Or.inl (strLtB_trans x1 x2 x3 h1 h2)
  · exact h2e ▸ Or.inl h1
  · exact Or.inl h2
  · exact Or.inr ⟨h2e, strLeB_trans k1 k2 k3 h1' h2'⟩

theorem keyLe_total (a b : Bool × List Char × List Char) :
    keyLe a b = true ∨ keyLe b a = true := by
  obtain ⟨b1, x1, k1⟩ := a
  obtain ⟨b2, x2, k2⟩ := b
  cases b1 <;> cases b2
  · rcases strPairLeB_total x1 k1 x2 k2 with h | h
    · left; simp [keyLe, h]
    · right; simp [keyLe, h]
  · left; simp [keyLe]
  · right; simp [keyLe]
  · rcases strPairLeB_total x1 k1 x2 k2 with h | h
    · left; simp [keyLe, h]
    · right; simp [keyLe, h]

theorem keyLe_trans (a b c : Bool × List Char × List Char) :
    keyLe a b = true → keyLe b c = true → keyLe a c = true := by
  obtain ⟨b1, x1, k1⟩ := a
  obtain ⟨b2, x2, k2⟩ := b
  obtain ⟨b3, x3, k3⟩ := c
  intro hab hbc
  cases b1 <;> cases b2 <;> cases b3 <;>
    simp only [keyLe, Bool.not_false, Bool.not_true, Bool.false_and, Bool.true_and,
      Bool.and_false, Bool.and_true, Bool.or_false, Bool.false_or, Bool.and_self,
      Bool.or_true, Bool.true_or, beq_self_eq_true, Bool.false_eq_true,
      beq_iff_eq] at hab hbc ⊢
  all_goals first
    | rfl
    | trivial
    | exact strPairLeB_trans x1 k1 x2 k2 x3 k3 hab hbc

instance : IsTotal Row rowLe := ⟨fun a b => keyLe_total (rowKey a) (rowKey b)⟩

instance : IsTrans Row rowLe := ⟨fun a b c => keyLe_trans (rowKey a) (rowKey b) (rowKey c)⟩

theorem pdDropDupGo_keepFirst {α κ : Type} [DecidableEq κ] (key : α → κ) :
    ∀ (l : List α) (seen : List κ),
      pdDropDupGo key seen l = keepFirstBy key (l.filter fun y => !decide (key y ∈ seen)) := by
  intro l
  induction l with
  | nil => intro seen; simp [pdDropDupGo, keepFirstBy]
  | cons x xs ih =>
    intro seen
    by_cases hx : key x ∈ seen
    · have hpx : (!decide (key x ∈ seen)) = false := by simp [hx]
      rw [pdDropDupGo, if_pos hx, List.filter_cons, hpx]
      simp only [Bool.false_eq_true, if_false]
      exact ih seen
    · have hpx : (!decide (key x ∈ seen)) = true := by simp [hx]
      rw [pdDropDupGo, if_neg hx, List.filter_cons, hpx]
      simp only [if_true]
      rw [keepFirstBy]
      congr 1
      rw [ih (key x :: seen), List.filter_filter]
      congr 1
      apply List.filter_congr
      intro y _
      by_cases h1 : key y = key x <;> by_cases h2 : key y ∈ seen <;>
        simp [h1, h2, List.mem_cons]

theorem pdDropDupGo_nodup_avoid {α κ : Type} [DecidableEq κ] (key : α → κ) :
    ∀ (l : List α) (seen : List κ),
      ((pdDropDupGo key seen l).map key).Nodup ∧
        ∀ k ∈ (pdDropDupGo key seen l).map key, k ∉ seen := by
  intro l
  induction l with
  | nil => intro seen; refine ⟨?_, ?_⟩ <;> simp [pdDropDupGo]
  | cons x xs ih =>
    intro seen
    by_cases hx : key x ∈ seen
    · rw [pdDropDupGo, if_pos hx]
      exact ih seen
    · rw [pdDropDupGo, if_neg hx]
      obtain ⟨hnd, havoid⟩ := ih (key x :: seen)
      refine ⟨?_, ?_⟩
      · simp only [List.map_cons, List.nodup_cons]
        exact ⟨fun hmem => (havoid _ hmem) (List.mem_cons_self _ _), hnd⟩
      · intro k hk
        simp only [List.map_cons, List.mem_cons] at hk
        rcases hk with rfl | hk
        · exact hx
        · exact fun hks => (havoid k hk) (List.mem_cons_of_mem _ hks)

theorem pdDropDupGo_covers {α κ : Type} [DecidableEq κ] (key : α → κ) :
    ∀ (l : List α) (seen : List κ) (r : α), r ∈ l →
      key r ∈ (pdDropDupGo key seen l).map key ∨ key r ∈ seen := by
  intro l
  induction l with
  | nil => intro seen r h; cases h
  | cons x xs ih =>
    intro seen r hr
    by_cases hx : key x ∈ seen
    · rw [pdDropDupGo, if_pos hx]
      rcases List.mem_cons.mp hr with rfl | hr'
      · exact Or.inr hx
      · exact ih seen r hr'
    · rw [pdDropDupGo, if_neg hx]
      rcases List.mem_cons.mp hr with rfl | hr'
      · simp
      · rcases ih (key x :: seen) r hr' with h | h
        · left; simp only [List.map_cons, List.mem_cons]; exact Or.inr h
        · rcases List.mem_cons.mp h with he | h2
          · left; simp [he]
          · exact Or.inr h2

/-- C5: per-run dedup (`drop_duplicates(subset=["nipt","_keyword"])`)
keeps exactly the first occurrence of each (identifier, keyword) pair —
it equals the specification-style first-occurrence filter, its key
sequence is duplicate-free, and every pair occurring in the input
survives (so rows with the same identifier but distinct keywords are all
retained); global dedup first sorts by identifier then keyword ascending
(a permutation of the input, sorted under `rowLe`, missing identifiers
last) and then keeps the first row of each identifier. -/
theorem dedup_semantics (l : List Row) :
    runDedup l = keepFirstBy (fun r => (r.nipt, r.keyword)) l ∧
    ((runDedup l).map fun r => (r.nipt, r.keyword)).Nodup ∧
    (∀ r ∈ l, (r.nipt, r.keyword) ∈ (runDedup l).map fun r => (r.nipt, r.keyword)) ∧
    globalDedup l = keepFirstBy (fun r => r.nipt) (sortRows l) ∧
    (sortRows l).Perm l ∧
    List.Sorted rowLe (sortRows l) ∧
    ((globalDedup l).map fun r => r.nipt).Nodup := by
  refine ⟨?_, ?_, ?_, ?_, ?_, ?_, ?_⟩
  · rw [runDedup, drop_duplicates, pdDropDupGo_keepFirst]
    congr 1
    rw [show (fun y : Row => !decide ((y.nipt, y.keyword) ∈ ([] : List (Option String × String))))
        = fun _ : Row => true by funext y; simp]
    exact List.filter_true l
  · exact (pdDropDupGo_nodup_avoid _ l []).1
  · intro r hr
    rcases pdDropDupGo_covers (fun r : Row => (r.nipt, r.keyword)) l [] r hr with h | h
    · exact h
    · cases h
  · rw [globalDedup, drop_duplicates, pdDropDupGo_keepFirst]
    congr 1
    rw [show (fun y : Row => !decide (y.nipt ∈ ([] : List (Option String))))
        = fun _ : Row => true by funext y; simp]
    exact List.filter_true _
  · exact List.perm_insertionSort rowLe l
  · exact List.sorted_insertionSort rowLe l
  · exact (pdDropDupGo_nodup_avoid _ (sortRows l) []).1

def wDedupRows : List Row :=
  [⟨some "a", "k2", none⟩, ⟨some "a", "k1", none⟩, ⟨some "a", "k2", none⟩,
   ⟨some "b", "k1", none⟩]

def wRowA : Row := ⟨some "a", "k1", none⟩

/-- C5 witness: a concrete accumulation with an exact duplicate pair, a
second keyword for the same identifier, and a second identifier. -/
theorem dedup_semantics_witness :
    runDedup wDedupRows = keepFirstBy (fun r => (r.nipt, r.keyword)) wDedupRows ∧
    (wRowA.nipt, wRowA.keyword) ∈ ((runDedup wDedupRows).map fun r => (r.nipt, r.keyword)) ∧
    globalDedup wDedupRows = keepFirstBy (fun r => r.nipt) (sortRows wDedupRows) :=
  ⟨(dedup_semantics wDedupRows).1,
   (dedup_semantics wDedupRows).2.2.1 wRowA (by decide),
   (dedup_semantics wDedupRows).2.2.2.1⟩

/-! ### C8: parser strategy order -/

def wC8Body : String :=
  "\x7b\"data\": [], \"y\": \"response = JSON.parse('[1]')\"\x7d"

/-- C8 counterexample: a body that is valid direct JSON with an empty
wrapper result and that also contains the embedded `JSON.parse` pattern:
the parser returns the empty direct result immediately and never
consults the embedded literal, contradicting the claim's "including a
body that parses as direct JSON but produces an empty result". -/
theorem strategy_order_counterexample :
    parse_rows_from_response (some wC8Body) "" = .ok [] ∧
    rxSearch (pyTrim wC8Body.data) = some ('\'', "[1]".data) ∧
    (Except.ok ([] : List Json) : Except PErr (List Json)) ≠ .ok [Json.num "1"] :=
  ⟨rfl, rfl, by simp⟩

/-- C8 (amended): whenever the direct-JSON branch does not return — its
guard is false, `json.loads` raises, or the parsed value is a scalar —
and the embedded `JSON.parse` pattern is present, the parser returns the
rows parsed from the unescaped literal.  (A body that parses as direct
JSON with an empty result returns that empty result without the
embedded-literal search.) -/
theorem strategy_order_amended (body ct : String) (q : Char) (inner txt : List Char)
    (xs : List Json)
    (hdirect : directBranchL (pyTrim body.data) ct = none)
    (hsearch : rxSearch (pyTrim body.data) = some (q, inner))
    (hlit : pyUnescape q inner = .ok txt)
    (hjson : jsonLoadsL txt = .ok (Json.arr xs)) :
    parse_rows_from_response (some body) ct = .ok xs := by
  unfold parse_rows_from_response
  simp only [Option.getD_some, hdirect, hsearch, hlit, hjson]

/-- C8 witness: a body whose direct branch does not apply and whose
embedded literal carries `[1]`. -/
theorem strategy_order_amended_witness :
    parse_rows_from_response (some "xx response = JSON.parse('[1]')") "" =
      .ok [Json.num "1"] :=
  strategy_order_amended "xx response = JSON.parse('[1]')" "" '\'' "[1]".data "[1]".data
    [Json.num "1"] rfl rfl rfl rfl

/-! ### C1: the embedded-literal round trip

These lemmas show that unescaping undoes `escapeList` and that the lazy
regex group captures the whole escaped literal exactly when no position
inside it carries the quote character followed by `\s*\)`
(`noEarlyClose`).  The counterexample below shows the round trip fails
without that condition. -/

theorem hexDigitChar_isHex {n : Nat} (h : n < 16) : isHexDig (hexDigitChar n) = true := by
  interval_cases n <;> rfl

theorem hexVal_hexDigitChar {n : Nat} (h : n < 16) : hexVal (hexDigitChar n) = n := by
  interval_cases n <;> rfl

theorem pyEscStep_u_eq (q a b c2 d : Char) (rest : List Char) :
    pyEscStep q ('u' :: a :: b :: c2 :: d :: rest) =
      (if isHexDig a && isHexDig b && isHexDig c2 && isHexDig d then
        if isSurrogate (hexVal a * 4096 + hexVal b * 256 + hexVal c2 * 16 + hexVal d) then
          .error .badUnicode
        else
          .ok ([Char.ofNat (hexVal a * 4096 + hexVal b * 256 + hexVal c2 * 16 + hexVal d)],
            rest)
      else .error .badUnicode) := rfl

theorem pyEscStep_u (q c : Char) (hb : c.toNat < 65536)
    (hs : ¬(0xD800 ≤ c.toNat ∧ c.toNat < 0xE000)) (rest : List Char) :
    pyEscStep q ('u' :: (hex4 c.toNat ++ rest)) = .ok ([c], rest) := by
  have d3 : c.toNat / 4096 % 16 < 16 := Nat.mod_lt _ (by norm_num)
  have d2 : c.toNat / 256 % 16 < 16 := Nat.mod_lt _ (by norm_num)
  have d1 : c.toNat / 16 % 16 < 16 := Nat.mod_lt _ (by norm_num)
  have d0 : c.toNat % 16 < 16 := Nat.mod_lt _ (by norm_num)
  have hsur : isSurrogate c.toNat = false := by
    simp only [isSurrogate, Bool.and_eq_false_iff, decide_eq_false_iff_not]
    omega
  simp only [hex4, List.cons_append, List.nil_append]
  rw [pyEscStep_u_eq]
  rw [hexDigitChar_isHex d3, hexDigitChar_isHex d2, hexDigitChar_isHex d1,
    hexDigitChar_isHex d0]
  simp only [Bool.and_self, if_true]
  rw [hexVal_hexDigitChar d3, hexVal_hexDigitChar d2, hexVal_hexDigitChar d1,
    hexVal_hexDigitChar d0]
  rw [show c.toNat / 4096 % 16 * 4096 + c.toNat / 256 % 16 * 256 +
      c.toNat / 16 % 16 * 16 + c.toNat % 16 = c.toNat by omega]
  rw [hsur]
  simp only [Bool.false_eq_true, if_false]
  rw [Char.ofNat_toNat]

theorem pyUnescapeF_esc_eq (q : Char) (f : Nat) (cs : List Char) :
    pyUnescapeF q (f + 1) ('\\' :: cs) =
      (match pyEscStep q cs with
       | .error e => .error e
       | .ok (em, rest) =>
         match pyUnescapeF q f rest with
         | .ok r => .ok (em ++ r)
         | .error e => .error e) := rfl

theorem pyUnescapeF_plain_eq (q : Char) (f : Nat) (c : Char) (cs : List Char)
    (h1 : c ≠ '\\') (h2 : c ≠ q) (h3 : c ≠ '\n') (h4 : c ≠ '\r') :
    pyUnescapeF q (f + 1) (c :: cs) =
      (match pyUnescapeF q f cs with
       | .ok r => .ok (c :: r)
       | .error e => .error e) := by
  simp only [pyUnescapeF]
  rw [if_neg h1, if_neg h2, if_neg (by simp [h3, h4])]

theorem pyUnescapeF_escapeList (q : Char) (hq : q = '"' ∨ q = '\'') :
    ∀ (cs : List Char) (fuel : Nat), (escapeList q cs).length < fuel →
      pyUnescapeF q fuel (escapeList q cs) = .ok cs := by
  intro cs
  induction cs with
  | nil =>
    intro fuel hf
    cases fuel with
    | zero => simp [escapeList] at hf
    | succ f => rfl
  | cons c cs ih =>
    intro fuel hf
    rw [escapeList] at hf ⊢
    by_cases h1 : c = '\\'
    · subst h1
      have he : escapeChar q '\\' = ['\\', '\\'] := by rw [escapeChar, if_pos rfl]
      rw [he] at hf ⊢
      cases fuel with
      | zero => simp at hf
      | succ f =>
        have hstep : pyUnescapeF q (f + 1) (['\\', '\\'] ++ escapeList q cs) =
            (match pyUnescapeF q f (escapeList q cs) with
             | .ok r => .ok ('\\' :: r)
             | .error e => .error e) := rfl
        rw [hstep, ih f (by simp at hf ⊢; omega)]
    · by_cases h2 : c = q
      · subst h2
        rcases hq with rfl | rfl
        · have he : escapeChar '"' '"' = ['\\', '"'] := rfl
          rw [he] at hf ⊢
          cases fuel with
          | zero => simp at hf
          | succ f =>
            have hstep : pyUnescapeF '"' (f + 1) (['\\', '"'] ++ escapeList '"' cs) =
                (match pyUnescapeF '"' f (escapeList '"' cs) with
                 | .ok r => .ok ('"' :: r)
                 | .error e => .error e) := rfl
            rw [hstep, ih f (by simp at hf ⊢; omega)]
        · have he : escapeChar '\'' '\'' = ['\\', '\''] := rfl
          rw [he] at hf ⊢
          cases fuel with
          | zero => simp at hf
          | succ f =>
            have hstep : pyUnescapeF '\'' (f + 1) (['\\', '\''] ++ escapeList '\'' cs) =
                (match pyUnescapeF '\'' f (escapeList '\'' cs) with
                 | .ok r => .ok ('\'' :: r)
                 | .error e => .error e) := rfl
            rw [hstep, ih f (by simp at hf ⊢; omega)]
      · by_cases h3 : (decide (c.toNat < 0x20) ||
            (decide (0x80 ≤ c.toNat) && decide (c.toNat < 0x10000))) = true
        · have he : escapeChar q c = '\\' :: 'u' :: hex4 c.toNat := by
            rw [escapeChar, if_neg h1, if_neg h2, if_pos h3]
          have hb : c.toNat < 65536 := by
            simp only [Bool.or_eq_true, Bool.and_eq_true, decide_eq_true_eq] at h3
            rcases h3 with h | h <;> omega
          have hs' : ¬(0xD800 ≤ c.toNat ∧ c.toNat < 0xE000) := by
            have hv := c.valid
            have hvn : c.toNat = c.val.toNat := rfl
            rcases hv with h | h <;> omega
          rw [he] at hf ⊢
          cases fuel with
          | zero => simp at hf
          | succ f =>
            rw [List.cons_append, List.cons_append, pyUnescapeF_esc_eq,
              pyEscStep_u q c hb hs' (escapeList q cs)]
            show (match pyUnescapeF q f (escapeList q cs) with
                  | Except.ok r => (Except.ok ([c] ++ r) : Except LitErr (List Char))
                  | Except.error e => Except.error e) = Except.ok (c :: cs)
            rw [ih f (by simp [hex4] at hf ⊢; omega)]
            rfl
        · have he : escapeChar q c = [c] := by
            rw [escapeChar, if_neg h1, if_neg h2, if_neg h3]
          have hge : ¬(decide (c.toNat < 0x20) = true) := by
            intro habs
            exact h3 (by simp [habs])
          have hn : c ≠ '\n' := by
            intro he'
            subst he'
            exact hge (by decide)
          have hr : c ≠ '\r' := by
            intro he'
            subst he'
            exact hge (by decide)
          rw [he] at hf ⊢
          cases fuel with
          | zero => simp at hf
          | succ f =>
            rw [List.singleton_append, pyUnescapeF_plain_eq q f c _ h1 h2 hn hr,
              ih f (by simp at hf ⊢; omega)]

theorem pyUnescape_escapeList (q : Char) (hq : q = '"' ∨ q = '\'') (cs : List Char) :
    pyUnescape q (escapeList q cs) = .ok cs :=
  pyUnescapeF_escapeList q hq cs _ (Nat.lt_succ_self _)

theorem closeAfter_append (q : Char) (hq : q = '"' ∨ q = '\'') (cs : List Char) :
    closeAfter (cs ++ [q, ')']) = closeAfter cs := by
  unfold closeAfter rxDropWs
  rw [List.dropWhile_append]
  by_cases h : (List.dropWhile pyWs cs).isEmpty
  · rw [if_pos h]
    have h' : List.dropWhile pyWs cs = [] := by simpa using h
    rw [h']
    rcases hq with rfl | rfl <;> rfl
  · rw [if_neg h]
    obtain ⟨d, t, hd⟩ : ∃ d t, List.dropWhile pyWs cs = d :: t := by
      cases hdw : List.dropWhile pyWs cs with
      | nil => rw [hdw] at h; simp at h
      | cons d t => exact ⟨d, t, rfl⟩
    rw [hd, List.cons_append]

theorem findClose_append (q : Char) (hq : q = '"' ∨ q = '\'') :
    ∀ esc : List Char, noEarlyClose q esc = true →
      findClose q (esc ++ [q, ')']) = some esc := by
  intro esc
  induction esc with
  | nil =>
    intro _
    rcases hq with rfl | rfl <;> rfl
  | cons c cs ih =>
    intro hne
    rw [noEarlyClose] at hne
    simp only [Bool.and_eq_true, Bool.not_eq_true', Bool.and_eq_false_iff] at hne
    rw [List.cons_append, findClose, closeAfter_append q hq cs]
    have hcond : (decide (c = q) && closeAfter cs) = false := by
      rcases hne.1 with h | h <;> simp [h]
    rw [hcond]
    simp only [Bool.false_eq_true, if_false]
    rw [ih hne.2]

theorem dropWhile_eq_self_head (p : Char → Bool) (l : List Char)
    (h : ∀ c, l.head? = some c → p c = false) : List.dropWhile p l = l := by
  cases l with
  | nil => rfl
  | cons a t =>
    rw [List.dropWhile_cons, h a rfl]
    simp

theorem wrapChars_eq_concat (q : Char) (esc : List Char) :
    wrapChars q esc = ("response = JSON.parse(".data ++ q :: (esc ++ [q])) ++ [')'] := by
  simp [wrapChars, List.append_assoc]

theorem pyTrim_wrapChars (q : Char) (esc : List Char) :
    pyTrim (wrapChars q esc) = wrapChars q esc := by
  unfold pyTrim
  rw [dropWhile_eq_self_head pyWs (wrapChars q esc) (fun c hc => by
    have hh : (wrapChars q esc).head? = some 'r' := rfl
    rw [hh] at hc
    rw [(Option.some.inj hc).symm]
    rfl)]
  rw [dropWhile_eq_self_head pyWs (wrapChars q esc).reverse (fun c hc => by
    have hh : (wrapChars q esc).reverse.head? = some ')' := by
      rw [wrapChars_eq_concat, List.reverse_append]
      rfl
    rw [hh] at hc
    rw [(Option.some.inj hc).symm]
    rfl)]
  exact List.reverse_reverse _

theorem directBranch_wrap_none (q : Char) (esc : List Char) :
    directBranchL (wrapChars q esc) "" = none := rfl

theorem rxMatchAt_wrap (q : Char) (hq : q = '"' ∨ q = '\'') (esc : List Char)
    (hne : noEarlyClose q esc = true) :
    rxMatchAt (wrapChars q esc) = some (q, esc) := by
  rcases hq with rfl | rfl
  · have hstep : rxMatchAt (wrapChars '"' esc) =
        (match findClose '"' (esc ++ ['"', ')']) with
         | some inner => some ('"', inner)
         | none => none) := rfl
    rw [hstep, findClose_append '"' (Or.inl rfl) esc hne]
  · have hstep : rxMatchAt (wrapChars '\'' esc) =
        (match findClose '\'' (esc ++ ['\'', ')']) with
         | some inner => some ('\'', inner)
         | none => none) := rfl
    rw [hstep, findClose_append '\'' (Or.inr rfl) esc hne]

theorem rxSearch_wrap (q : Char) (hq : q = '"' ∨ q = '\'') (esc : List Char)
    (hne : noEarlyClose q esc = true) :
    rxSearch (wrapChars q esc) = some (q, esc) := by
  have hstep : rxSearch (wrapChars q esc) =
      (match rxMatchAt (wrapChars q esc) with
       | some r => some r
       | none => rxSearch ("esponse = JSON.parse(".data ++ q :: (esc ++ [q, ')']))) := rfl
  rw [hstep, rxMatchAt_wrap q hq esc hne]

/-- C1 counterexample: for the JSON array text `[")"]` — whose only
string contains `)` right after a quote — the escaped double-quoted
literal is `[\")\"]`, and the regex's lazy escape-blind group stops at
the `\"` that precedes `)`, capturing `[\`; `ast.literal_eval` then
raises on the trailing backslash, so `parse` does not return the array
(it raises), refuting the claim's "for every JSON array text J". -/
theorem parse_roundtrip_counterexample :
    jsonLoads "[\")\"]" = .ok (Json.arr [Json.str ")"]) ∧
    parse_rows_from_response (some (wrapJs '"' "[\")\"]")) "" =
      .error (.literalExn .trailingBackslash) ∧
    (Except.error (.literalExn .trailingBackslash) : Except PErr (List Json)) ≠
      .ok [Json.str ")"] :=
  ⟨rfl, rfl, by simp⟩

/-- C1 (amended): for every JSON array text `J`, wrapping `J` as an
escaped JavaScript string literal (single- or double-quoted, with
backslash escapes for the quote and backslash and `\uXXXX` escapes for
control and non-ASCII BMP characters) inside
`response = JSON.parse("...")` and parsing the body returns exactly the
sequence `json.loads` yields on `J` directly — provided the escaped
literal contains no position where the quote character is followed by
optional whitespace and `)` (the condition under which the lazy,
escape-blind group of `JSON_PARSE_RX` captures the whole literal; the
counterexample shows the round trip fails without it). -/
theorem parse_roundtrip_amended (q : Char) (hq : q = '"' ∨ q = '\'') (J : String)
    (xs : List Json) (hJ : jsonLoads J = .ok (Json.arr xs))
    (hcap : noEarlyClose q (escapeList q J.data) = true) :
    parse_rows_from_response (some (wrapJs q J)) "" = .ok xs := by
  have hdata : (wrapJs q J).data = wrapChars q (escapeList q J.data) := rfl
  have hJ' : jsonLoadsL J.data = .ok (Json.arr xs) := hJ
  unfold parse_rows_from_response
  simp only [Option.getD_some, hdata, pyTrim_wrapChars, directBranch_wrap_none,
    rxSearch_wrap q hq (escapeList q J.data) hcap,
    pyUnescape_escapeList q hq J.data, hJ']

/-- C1 witness: the array text `["a"]`, double-quoted. -/
theorem parse_roundtrip_amended_witness :
    parse_rows_from_response (some (wrapJs '"' "[\"a\"]")) "" = .ok [Json.str "a"] :=
  parse_roundtrip_amended '"' (Or.inl rfl) "[\"a\"]" [Json.str "a"] rfl rfl
